import Mathlib

/-!
Verification of the outbound request pipeline of the gorgias-mcp server:
rate limiter (`src/utils/rate-limiter.ts`), retry handler
(`src/utils/retry-handler.ts`) and API client / aggregation engine
(`src/utils/gorgias-client.ts`), shallowly embedded in Lean.

Conventions of the embedding:
* JavaScript numbers holding millisecond timestamps are modelled as `Int`;
  delays and satisfaction scores (which involve division and jitter) as `ℚ`.
* `Date` strings are modelled directly by their time value (`Int`), since the
  source only ever compares them after `new Date(...)` conversion.
* JavaScript truthiness of optional strings / numbers is modelled explicitly
  (`jsFalsyOptStr`, `jsOrDefaultNat`, the `score ≠ 0` test, ...).
* Asynchronous operations are modelled as pure functions; an operation that
  may fail returns `Except`.  `setTimeout` sleeps are modelled by advancing
  the explicit clock by exactly the requested amount.
-/

/-! ## JavaScript string / number primitives used by the source -/

/-- `String.startsWith` on character lists: `pat` is a prefix of `l`. -/
def startsWithChars : List Char → List Char → Bool
  | [], _ => true
  | _ :: _, [] => false
  | p :: ps, c :: cs => p == c && startsWithChars ps cs

/-- Substring occurrence on character lists: `pat` occurs somewhere in `l`. -/
def hasSubChars (pat : List Char) : List Char → Bool
  | [] => pat.isEmpty
  | c :: rest => startsWithChars pat (c :: rest) || hasSubChars pat rest

/-- JavaScript `s.includes(pat)`. -/
def jsIncludes (s pat : String) : Bool :=
  hasSubChars pat.toList s.toList

/-- JavaScript truthiness of an optional string: `undefined` and `""` are falsy. -/
def jsFalsyOptStr : Option String → Bool
  | none => true
  | some s => s.isEmpty

/-- JavaScript `x || d` for an optional number `x` and default `d`
(`undefined` and `0` are falsy). -/
def jsOrDefaultNat (o : Option Nat) (d : Nat) : Nat :=
  match o with
  | none => d
  | some n => if n = 0 then d else n

/-- JavaScript `Math.round`: round half toward positive infinity. -/
def jsRound (q : ℚ) : ℤ := ⌊q + 1/2⌋

/-- `[...new Set(l)]`: keep the first occurrence of each element, in order.
Implemented as the fold JavaScript's `Set` insertion performs. -/
def jsUniqueFold {α : Type} [DecidableEq α] (acc : List α) (l : List α) : List α :=
  l.foldl (fun acc x => if x ∈ acc then acc else acc ++ [x]) acc

/-- `[...new Set(l)]` starting from the empty set. -/
def jsUnique {α : Type} [DecidableEq α] (l : List α) : List α :=
  jsUniqueFold [] l

/-! ## A stable sort

`Array.prototype.sort` is stable (ECMA-262); any stable sort with the same
comparator produces the same array.  We embed it as a structurally recursive
stable insertion sort so that witnesses can evaluate it. -/

/-- Stable insertion of `x` into `l`: `x` goes before the first element `y`
with `le x y` (so among comparator-equal elements the earlier original
element stays first). -/
def insertStable {α : Type} (le : α → α → Bool) (x : α) : List α → List α
  | [] => [x]
  | y :: ys => if le x y then x :: y :: ys else y :: insertStable le x ys

/-- Stable insertion sort. -/
def stableSort {α : Type} (le : α → α → Bool) : List α → List α
  | [] => []
  | x :: xs => insertStable le x (stableSort le xs)

theorem insertStable_perm {α : Type} (le : α → α → Bool) (x : α) (l : List α) :
    (insertStable le x l).Perm (x :: l) := by
  induction l with
  | nil => exact List.Perm.refl _
  | cons y ys ih =>
      by_cases h : le x y = true
      · rw [insertStable, if_pos h]
      · rw [insertStable, if_neg h]
        exact (List.Perm.cons y ih).trans (List.Perm.swap x y ys)

theorem stableSort_perm {α : Type} (le : α → α → Bool) (l : List α) :
    (stableSort le l).Perm l := by
  induction l with
  | nil => simp [stableSort]
  | cons x xs ih =>
      exact (insertStable_perm le x (stableSort le xs)).trans (ih.cons x)

theorem insertStable_pairwise {α : Type} (le : α → α → Bool)
    (htot : ∀ a b, le a b = true ∨ le b a = true)
    (htrans : ∀ a b c, le a b = true → le b c = true → le a c = true)
    (x : α) (l : List α) (h : l.Pairwise (fun a b => le a b = true)) :
    (insertStable le x l).Pairwise (fun a b => le a b = true) := by
  induction l with
  | nil => simp [insertStable]
  | cons y ys ih =>
      rcases List.pairwise_cons.1 h with ⟨hy, hys⟩
      by_cases hxy : le x y = true
      · rw [insertStable, if_pos hxy]
        refine List.pairwise_cons.2 ⟨?_, h⟩
        intro z hz
        rcases List.mem_cons.1 hz with hz | hz
        · exact hz.symm ▸ hxy
        · exact htrans x y z hxy (hy z hz)
      · rw [insertStable, if_neg hxy]
        refine List.pairwise_cons.2 ⟨?_, ih hys⟩
        intro z hz
        rcases List.mem_cons.1 ((insertStable_perm le x ys).mem_iff.1 hz) with hz' | hz'
        · rcases htot x y with h' | h'
          · exact absurd h' hxy
          · exact hz'.symm ▸ h'
        · exact hy z hz'

theorem stableSort_pairwise {α : Type} (le : α → α → Bool)
    (htot : ∀ a b, le a b = true ∨ le b a = true)
    (htrans : ∀ a b c, le a b = true → le b c = true → le a c = true)
    (l : List α) :
    (stableSort le l).Pairwise (fun a b => le a b = true) := by
  induction l with
  | nil => simp [stableSort]
  | cons x xs ih => exact insertStable_pairwise le htot htrans x _ ih

/-! ## Error codes (`src/types/gorgias.ts`, `ERROR_CODES`) -/

namespace ERROR_CODES

def INVALID_API_KEY : String := "INVALID_API_KEY"
def RATE_LIMIT_EXCEEDED : String := "RATE_LIMIT_EXCEEDED"
def RESOURCE_NOT_FOUND : String := "RESOURCE_NOT_FOUND"
def VALIDATION_ERROR : String := "VALIDATION_ERROR"
def NETWORK_ERROR : String := "NETWORK_ERROR"
def UNAUTHORIZED : String := "UNAUTHORIZED"
def FORBIDDEN : String := "FORBIDDEN"

end ERROR_CODES

/-! ## Retry handler (`src/utils/retry-handler.ts`) -/

/-- A JavaScript `Error` as the retry handler sees it: its `message`
(defaulted to `""` when absent, as `error.message || ''` does) and the
optional `error.response?.status`. -/
structure JsError where
  message : String
  status : Option Nat
  deriving DecidableEq, Repr

/-- `RetryHandler.shouldRetry` (retry-handler.ts:45-57).  The
`statusCode && statusCode >= 500` test is JavaScript truthiness: an absent
status short-circuits to `false` (and `0` would too). -/
def shouldRetry (e : JsError) : Bool :=
  jsIncludes e.message ERROR_CODES.RATE_LIMIT_EXCEEDED ||
  jsIncludes e.message ERROR_CODES.NETWORK_ERROR ||
  (match e.status with
   | some statusCode => (statusCode != 0 && statusCode ≥ 500) ||
       statusCode == 408 || statusCode == 429
   | none => false)

/-- `RetryHandler.calculateDelay` (retry-handler.ts:59-64) with the value of
`Math.random() * 1000` passed in as `jitter`:
`min(baseDelay * 2^(attempt-1) + jitter, 30000)`. -/
def calculateDelay (baseDelay : ℚ) (jitter : ℚ) (attempt : Nat) : ℚ :=
  min (baseDelay * 2 ^ (attempt - 1) + jitter) 30000

/-- The observable trace of one `executeWithRetry` call: its outcome, the
list of attempt numbers at which the operation ran, and the delays slept
(paired with the attempt number each delay preceded). -/
structure RetryResult (T : Type) where
  result : Except JsError T
  attempts : List Nat
  delays : List (Nat × ℚ)
  deriving Repr

/-- The value JavaScript would throw as `lastError!` when the loop body never
ran (`maxAttempts < 1`): modelled as an error with empty message. -/
def jsUndefinedError : JsError := ⟨"", none⟩

/-- The `for (let attempt = 1; attempt <= maxAttempts; attempt++)` loop of
`RetryHandler.executeWithRetry` (retry-handler.ts:15-43), unrolled on the
number `remaining` of loop iterations still permitted
(`remaining = maxAttempts + 1 - attempt`, so the loop guard
`attempt <= maxAttempts` is `remaining > 0`).  `op n` is the outcome of the
n-th run of `operation`; `jitter n` is the `Math.random() * 1000` drawn
after a failure of attempt `n`.  The `break` statements followed by
`throw lastError` are inlined as returning the error directly. -/
def executeWithRetryGo {T : Type} (op : Nat → Except JsError T)
    (baseDelay : ℚ) (jitter : Nat → ℚ) (maxAttempts : Nat) :
    Nat → Nat → RetryResult T
  | 0, _ => ⟨.error jsUndefinedError, [], []⟩
  | remaining + 1, attempt =>
    match op attempt with
    | .ok v => ⟨.ok v, [attempt], []⟩
    | .error e =>
      if attempt = maxAttempts then ⟨.error e, [attempt], []⟩
      else if shouldRetry e then
        let delay := calculateDelay baseDelay (jitter attempt) attempt
        let r := executeWithRetryGo op baseDelay jitter maxAttempts remaining (attempt + 1)
        ⟨r.result, attempt :: r.attempts, (attempt + 1, delay) :: r.delays⟩
      else ⟨.error e, [attempt], []⟩

/-- `RetryHandler.executeWithRetry`: run from attempt 1, with `maxAttempts`
iterations available. -/
def executeWithRetry {T : Type} (op : Nat → Except JsError T)
    (baseDelay : ℚ) (jitter : Nat → ℚ) (maxAttempts : Nat) : RetryResult T :=
  executeWithRetryGo op baseDelay jitter maxAttempts maxAttempts 1

/-! ## Rate limiter (`src/utils/rate-limiter.ts`) -/

/-- `RateLimiter.checkLimit` (rate-limiter.ts:15-35).  Timestamps are
milliseconds (`Int`).  `now` plays `Date.now()`; the `setTimeout` wait is
modelled by re-entering with the clock advanced by exactly `waitTime`
(the recursive `return this.checkLimit()` of the source).  The source's
recursion is replayed on explicit `fuel`; `none` means the fuel ran out
(the sufficiency of `reqs.length + 1` fuel is proved, not assumed).
Note the assignment `this.requests = this.requests.filter(...)` happens
before the capacity check, so the recursive call receives the pruned list.
When `limit = 0` and the list is empty, the source reads
`this.requests[0]` as `undefined`, `waitTime` is `NaN`, and `NaN > 0` is
false, so it falls through and pushes: the `[]` match arm mirrors that. -/
def checkLimitFuel (limit : Nat) (windowMs : Int) :
    Nat → Int → List Int → Option (Int × List Int)
  | 0, _, _ => none
  | fuel + 1, now, reqs =>
    let pruned := reqs.filter (fun time => decide (now - windowMs < time))
    if limit ≤ pruned.length then
      match pruned with
      | [] => some (now, pruned ++ [now])
      | oldestRequest :: _ =>
        let waitTime := oldestRequest + windowMs - now
        if 0 < waitTime then
          checkLimitFuel limit windowMs fuel (now + waitTime) pruned
        else
          some (now, pruned ++ [now])
    else
      some (now, pruned ++ [now])

/-- A sequential trace of completed `checkLimit()` calls.  `gaps` are the
nonnegative delays between the completion of one call and the start of the
next (`Date.now()` is monotone across a sequential caller).  The trace
threads the limiter's `requests` list and accumulates `hist`, the full
history of recorded issuance timestamps. -/
def runTrace (limit : Nat) (windowMs : Int) :
    List Nat → Int → List Int → List Int → Option (Int × List Int × List Int)
  | [], clock, reqs, hist => some (clock, reqs, hist)
  | gap :: gaps, clock, reqs, hist =>
    match checkLimitFuel limit windowMs (reqs.length + 1) (clock + (gap : Int)) reqs with
    | none => none
    | some (granted, reqs') => runTrace limit windowMs gaps granted reqs' (hist ++ [granted])

/-! ## API client (`src/utils/gorgias-client.ts`) -/

/-- The message of the `Error` thrown by the response interceptor
(gorgias-client.ts:87-108) for a failed HTTP exchange with the given
optional status and underlying message.  The `status && status >= 500`
test is JavaScript truthiness: no status (or `0`) falls to the final
`else`. -/
def interceptorErrorMessage (status : Option Nat) (message : String) : String :=
  match status with
  | some s =>
    if s = 401 then ERROR_CODES.UNAUTHORIZED ++ ": Invalid API credentials - " ++ message
    else if s = 403 then ERROR_CODES.FORBIDDEN ++ ": Access denied - " ++ message
    else if s = 404 then ERROR_CODES.RESOURCE_NOT_FOUND ++ ": Resource not found - " ++ message
    else if s = 429 then ERROR_CODES.RATE_LIMIT_EXCEEDED ++ ": Rate limit exceeded - " ++ message
    else if s ≠ 0 ∧ 500 ≤ s then
      ERROR_CODES.NETWORK_ERROR ++ ": Server error (" ++ toString s ++ ") - " ++ message
    else ERROR_CODES.NETWORK_ERROR ++ ": Request failed - " ++ message
  | none => ERROR_CODES.NETWORK_ERROR ++ ": Request failed - " ++ message

/-- Modelled from the spec: the HTTP-failure classification table of §4.3
("401 ↦ Unauthorized, 403 ↦ Forbidden, 404 ↦ ResourceNotFound,
429 ↦ RateLimitExceeded, ≥500 ↦ NetworkError, other/none ↦ NetworkError"),
used as the reference against which the interceptor is compared.  Since
every status other than the four named ones maps to `NETWORK_ERROR`, the
table collapses to a five-way match. -/
def specHttpErrorKind (status : Option Nat) : String :=
  match status with
  | some s =>
    if s = 401 then ERROR_CODES.UNAUTHORIZED
    else if s = 403 then ERROR_CODES.FORBIDDEN
    else if s = 404 then ERROR_CODES.RESOURCE_NOT_FOUND
    else if s = 429 then ERROR_CODES.RATE_LIMIT_EXCEEDED
    else ERROR_CODES.NETWORK_ERROR
  | none => ERROR_CODES.NETWORK_ERROR

/-! ### Base64 and the constructor's debug log lines -/

/-- The base64 alphabet, indexed 0-63. -/
def base64Alphabet : List Char :=
  "ABCDEFGHIJKLMNOPQRSTUVWXYZabcdefghijklmnopqrstuvwxyz0123456789+/".toList

/-- One base64 digit. -/
def base64Digit (n : Nat) : Char := base64Alphabet.getD n '?'

/-- Base64-encode a byte list (RFC 4648, with `=` padding), as
`Buffer.toString('base64')` does. -/
def base64EncodeBytes : List Nat → List Char
  | [] => []
  | [b0] => [base64Digit (b0 / 4), base64Digit (b0 % 4 * 16), '=', '=']
  | [b0, b1] =>
      [base64Digit (b0 / 4), base64Digit (b0 % 4 * 16 + b1 / 16),
       base64Digit (b1 % 16 * 4), '=']
  | b0 :: b1 :: b2 :: rest =>
      base64Digit (b0 / 4) :: base64Digit (b0 % 4 * 16 + b1 / 16) ::
      base64Digit (b1 % 16 * 4 + b2 / 64) :: base64Digit (b2 % 64) ::
      base64EncodeBytes rest

/-- The UTF-8 encoding of one scalar value (RFC 3629). -/
def charUtf8 (c : Char) : List Nat :=
  let n := c.toNat
  if n < 128 then [n]
  else if n < 2048 then [192 + n / 64, 128 + n % 64]
  else if n < 65536 then [224 + n / 4096, 128 + n / 64 % 64, 128 + n % 64]
  else [240 + n / 262144, 128 + n / 4096 % 64, 128 + n / 64 % 64, 128 + n % 64]

/-- `Buffer.from(s).toString('base64')`: base64 of the UTF-8 bytes of `s`. -/
def base64Encode (s : String) : String :=
  String.mk (base64EncodeBytes ((s.toList.map charUtf8).flatten))

/-- The two lines the `GorgiasClient` constructor passes to `logger.debug`
(gorgias-client.ts:54-57); the second embeds the Basic-Auth credential pair
as `base64(username + ":" + apiKey)`.  They are emitted verbatim (with a
level prefix) whenever the logger is enabled at debug level. -/
def constructorDebugLogLines (domain username apiKey : String) : List String :=
  [ "API Base URL: " ++ ("https://" ++ domain ++ ".gorgias.com/api"),
    "Auth header: Basic " ++ base64Encode (username ++ ":" ++ apiKey) ]

/-! ### Data model (`src/types/gorgias.ts`), restricted to the fields the
aggregation pipeline reads -/

/-- A ticket tag (`Tag`): only `name` is read by the pipeline. -/
structure Tag where
  name : String
  deriving DecidableEq, Repr

/-- `satisfaction_survey`: only `score` is read. -/
structure SatisfactionSurvey where
  score : ℚ
  deriving DecidableEq, Repr

/-- A `Ticket`, restricted to the fields `extractCustomerEmails` reads.
`created_datetime` is the time value of the ISO date string. -/
structure Ticket where
  id : Nat
  status : String
  channel : String
  created_datetime : Int
  messages_count : Nat
  tags : List Tag
  satisfaction_survey : Option SatisfactionSurvey
  deriving DecidableEq, Repr

/-- A `Customer`, restricted to the fields the aggregation reads. -/
structure Customer where
  id : Nat
  email : String
  firstname : Option String
  lastname : Option String
  deriving DecidableEq, Repr

/-- The parameter object of `extractCustomerEmails` (gorgias-client.ts:205).
Date bounds are time values; `include_tags` / `include_satisfaction`
collapse `undefined` and `false` (both falsy). -/
structure ExtractParams where
  date_from : Option Int
  date_to : Option Int
  status_filter : Option (List String)
  include_tags : Bool
  include_satisfaction : Bool
  limit : Option Nat
  deriving DecidableEq, Repr

/-- The derived `CustomerEmailData` record. -/
structure CustomerEmailData where
  customer_id : Nat
  email : String
  firstname : Option String
  lastname : Option String
  ticket_count : Nat
  last_ticket_date : Option Int
  tags : List String
  status : String
  satisfaction_score : Option ℚ
  total_messages : Nat
  channels : List String
  deriving DecidableEq, Repr

/-! ### Ticket filtering and per-customer aggregation
(gorgias-client.ts:241-315) -/

/-- The comparator `(a, b) => new Date(b.created_datetime).getTime() -
new Date(a.created_datetime).getTime()` as a stable-sort "comes before"
relation: `a` may come before `b` iff the comparator is `≤ 0`, i.e.
`b.created_datetime ≤ a.created_datetime` (descending by creation time). -/
def createdDescLe (a b : Ticket) : Bool :=
  decide (b.created_datetime ≤ a.created_datetime)

/-- `filteredTickets.sort(...)`: stable sort descending by creation time. -/
def sortByCreatedDesc (ts : List Ticket) : List Ticket :=
  stableSort createdDescLe ts

/-- The date-range filter of `extractCustomerEmails`
(gorgias-client.ts:243-252): applied only when at least one bound is given;
each given bound is inclusive. -/
def filterTicketsByDate (date_from date_to : Option Int) (ts : List Ticket) : List Ticket :=
  if date_from.isSome || date_to.isSome then
    ts.filter (fun ticket =>
      (match date_from with
       | some fromDate => decide (fromDate ≤ ticket.created_datetime)
       | none => true) &&
      (match date_to with
       | some toDate => decide (ticket.created_datetime ≤ toDate)
       | none => true))
  else ts

/-- The status filter of `extractCustomerEmails` (gorgias-client.ts:254-259):
applied only when a nonempty `status_filter` is given. -/
def filterTicketsByStatus (status_filter : Option (List String)) (ts : List Ticket) : List Ticket :=
  match status_filter with
  | some sf => if 0 < sf.length then ts.filter (fun ticket => sf.contains ticket.status) else ts
  | none => ts

/-- `filteredTickets`: the date filter followed by the status filter. -/
def filteredTicketsOf (p : ExtractParams) (ts : List Ticket) : List Ticket :=
  filterTicketsByStatus p.status_filter (filterTicketsByDate p.date_from p.date_to ts)

/-- The JavaScript truthiness test `ticket.satisfaction_survey?.score`:
true iff a survey is present and its score is nonzero. -/
def hasTruthyScore (t : Ticket) : Bool :=
  match t.satisfaction_survey with
  | some sv => decide (sv.score ≠ 0)
  | none => false

/-- The satisfaction scores `calculateAverageSatisfaction` keeps. -/
def satisfactionScores (tickets : List Ticket) : List ℚ :=
  (tickets.filter hasTruthyScore).map (fun t =>
    match t.satisfaction_survey with
    | some sv => sv.score
    | none => 0)

/-- `GorgiasClient.calculateAverageSatisfaction` (gorgias-client.ts:306-315):
`undefined` when no ticket passes the truthiness test, otherwise the mean,
rounded to 2 decimals via `Math.round(average * 100) / 100`. -/
def calculateAverageSatisfaction (tickets : List Ticket) : Option ℚ :=
  let scores := satisfactionScores tickets
  if scores.length = 0 then none
  else
    let average := scores.foldl (· + ·) 0 / (scores.length : ℚ)
    some ((jsRound (average * 100) : ℚ) / 100)

/-- The `customerData` object literal of `extractCustomerEmails`
(gorgias-client.ts:262-282).  The source's `.sort(...)` mutates
`filteredTickets` in place while `last_ticket_date` is computed, so every
field written after it (`tags`, `status`, `satisfaction_score`,
`total_messages`, `channels`) reads the sorted array; `ticket_count` reads
the length, which the mutation does not change. -/
def buildCustomerData (p : ExtractParams) (customer : Customer)
    (filteredTickets : List Ticket) : CustomerEmailData :=
  let sorted := sortByCreatedDesc filteredTickets
  { customer_id := customer.id
    email := customer.email
    firstname := customer.firstname
    lastname := customer.lastname
    ticket_count := filteredTickets.length
    last_ticket_date :=
      match sorted with
      | [] => none
      | t :: _ => some t.created_datetime
    tags :=
      if p.include_tags then
        jsUnique ((sorted.map (fun t => t.tags.map Tag.name)).flatten)
      else []
    status :=
      match sorted with
      | [] => "unknown"
      | t :: _ => t.status
    satisfaction_score :=
      if p.include_satisfaction then calculateAverageSatisfaction sorted
      else none
    total_messages := sorted.foldl (fun sum t => sum + t.messages_count) 0
    channels := jsUnique (sorted.map Ticket.channel) }

/-! ### The extraction loop (gorgias-client.ts:205-304)

The remote collections are abstracted as an environment: `pages` is the
sequence of customer pages `listCustomers` returns (the continuation cursor
is present exactly while further pages remain), and `ticketsFor c` is the
outcome of the `listTickets({customer_id: c.id, limit: 50})` call for
customer `c` (already routed through rate limiting and retry; a `.error`
is the classified failure that call finally raises). -/

/-- One iteration of the inner `for (const customer of customers.data)`
body: a failing ticket fetch is caught (`catch` at gorgias-client.ts:289)
and yields no record. -/
def processCustomer (p : ExtractParams)
    (ticketsFor : Customer → Except JsError (List Ticket))
    (customer : Customer) : Option CustomerEmailData :=
  match ticketsFor customer with
  | .error _ => none
  | .ok tickets => some (buildCustomerData p customer (filteredTicketsOf p tickets))

/-- The inner `for` loop over one page of customers, threading
`processedCount` and the accumulated `customerEmails`.  `processedCount`
is incremented only when a record is pushed, and the loop breaks once it
reaches `maxLimit`. -/
def processPage (p : ExtractParams)
    (ticketsFor : Customer → Except JsError (List Ticket)) (maxLimit : Nat) :
    List Customer → Nat → List CustomerEmailData → Nat × List CustomerEmailData
  | [], processedCount, acc => (processedCount, acc)
  | customer :: rest, processedCount, acc =>
    if maxLimit ≤ processedCount then (processedCount, acc)
    else
      match processCustomer p ticketsFor customer with
      | some customerData =>
          processPage p ticketsFor maxLimit rest (processedCount + 1) (acc ++ [customerData])
      | none => processPage p ticketsFor maxLimit rest processedCount acc

/-- The outer `do ... while (cursor && processedCount < maxLimit)` loop:
after a page, continue iff a next-page cursor exists (`rest ≠ []`) and the
limit is not reached. -/
def extractLoop (p : ExtractParams)
    (ticketsFor : Customer → Except JsError (List Ticket)) (maxLimit : Nat) :
    List (List Customer) → Nat → List CustomerEmailData → List CustomerEmailData
  | [], _, acc => acc
  | page :: rest, processedCount, acc =>
    let r := processPage p ticketsFor maxLimit page processedCount acc
    match rest with
    | [] => r.2
    | _ :: _ => if r.1 < maxLimit then extractLoop p ticketsFor maxLimit rest r.1 r.2 else r.2

/-- `GorgiasClient.extractCustomerEmails`: `maxLimit = params.limit || 100`
(JavaScript `||`, so a limit of `0` also falls back to 100), starting with
`processedCount = 0` and an empty accumulator. -/
def extractCustomerEmails (p : ExtractParams)
    (ticketsFor : Customer → Except JsError (List Ticket))
    (pages : List (List Customer)) : List CustomerEmailData :=
  extractLoop p ticketsFor (jsOrDefaultNat p.limit 100) pages 0 []

/-! ### `sendReply` (gorgias-client.ts:319-363) -/

/-- The `MessageRequest` input (`src/types/gorgias.ts`).  `message_type` is
kept as a string (the TS union `'outgoing' | 'internal-note' | 'incoming'`). -/
structure MessageRequest where
  ticket_id : Nat
  message_type : String
  body_text : String
  body_html : Option String
  sender_email : String
  receiver_email : Option String
  subject : Option String
  source_from_address : Option String
  deriving DecidableEq, Repr

/-- The `messagePayload` object `sendReply` builds and POSTs.  Optional
fields are `none` when the corresponding key is never set. -/
structure MessagePayload where
  body_text : String
  body_html : String
  via : String
  from_agent : Option Bool
  channel : Option String
  receiver_email_field : Option String
  sender_email_field : Option String
  source_to_from : Option (String × String)
  subject : Option String
  deriving DecidableEq, Repr

/-- The error thrown for an outgoing message without a receiver
(gorgias-client.ts:333). -/
def receiverRequiredError : JsError :=
  ⟨ERROR_CODES.VALIDATION_ERROR ++ ": receiver_email is required for outgoing messages", none⟩

/-- The body of the operation `sendReply` hands to the retry handler:
build `messagePayload`, throwing the validation error for an outgoing
message whose `receiver_email` is falsy, before the single
`client.post(...)` is reached.  An `.ok payload` is therefore exactly one
HTTP request carrying `payload`; an `.error` means no request was issued. -/
def sendReplyBuild (r : MessageRequest) : Except JsError MessagePayload :=
  let base : MessagePayload :=
    { body_text := r.body_text
      body_html :=
        match r.body_html with
        | some h => if h.isEmpty then r.body_text else h
        | none => r.body_text
      via := "api"
      from_agent := none
      channel := none
      receiver_email_field := none
      sender_email_field := none
      source_to_from := none
      subject := none }
  let withType : Except JsError MessagePayload :=
    if r.message_type = "outgoing" then
      if jsFalsyOptStr r.receiver_email then .error receiverRequiredError
      else
        .ok { base with
              from_agent := some true
              channel := some "email"
              receiver_email_field := some (r.receiver_email.getD "")
              sender_email_field := some r.sender_email
              source_to_from :=
                match r.source_from_address with
                | some addr =>
                    if addr.isEmpty then none
                    else some (r.receiver_email.getD "", addr)
                | none => none }
    else if r.message_type = "internal-note" then
      .ok { base with
            from_agent := some true
            channel := some "internal-note"
            sender_email_field := some r.sender_email }
    else if r.message_type = "incoming" then
      .ok { base with
            from_agent := some false
            channel := some "email"
            sender_email_field := some r.sender_email }
    else .ok base
  match withType with
  | .error e => .error e
  | .ok payload =>
      .ok { payload with
            subject :=
              match r.subject with
              | some s => if s.isEmpty then none else some s
              | none => none }

/-- The number of HTTP requests the `sendReply` operation body issues:
the source reaches its one `client.post` iff the payload build did not
throw. -/
def sendReplyHttpRequests (r : MessageRequest) : Nat :=
  match sendReplyBuild r with
  | .ok _ => 1
  | .error _ => 0

/-! ### `updateTicket` (gorgias-client.ts:365-380) -/

/-- A JavaScript field value as `Object.entries(updateData)` sees it.
`undef` stands for `undefined` (an absent or explicitly-undefined field),
`null` for the JavaScript `null`; the remaining constructors carry the
values the `TicketUpdate` interface allows. -/
inductive JsVal where
  | undef
  | null
  | str (s : String)
  | num (n : Int)
  | tagList (names : List String)
  | metaMap (m : List (String × String))
  deriving DecidableEq, Repr

/-- The `TicketUpdate` input (`src/types/gorgias.ts`): `ticket_id` plus the
six optional update fields. -/
structure TicketUpdate where
  ticket_id : Nat
  status : JsVal
  assignee_user_id : JsVal
  tags : JsVal
  priority : JsVal
  subject : JsVal
  meta : JsVal
  deriving DecidableEq, Repr

/-- `const { ticket_id, ...updateData } = ticketUpdate` followed by
`Object.entries(updateData)`: the six update fields as key/value pairs. -/
def updateData (u : TicketUpdate) : List (String × JsVal) :=
  [("status", u.status), ("assignee_user_id", u.assignee_user_id),
   ("tags", u.tags), ("priority", u.priority),
   ("subject", u.subject), ("meta", u.meta)]

/-- The `payload` object `updateTicket` PUTs: every entry whose value is
neither `undefined` nor `null` (`value !== undefined && value !== null`,
gorgias-client.ts:370-375). -/
def updateTicketPayload (u : TicketUpdate) : List (String × JsVal) :=
  (updateData u).filter (fun kv => !(kv.2 = JsVal.undef) && !(kv.2 = JsVal.null))

/-! ## Lemmas about the retry handler -/

/-- Characterization of the retry loop from attempt `attempt` on, with
`remaining = maxAttempts + 1 - attempt` iterations left: there is a last
attempt `A`; the operation ran exactly at attempts `attempt..A`; every
attempt before `A` failed retryably; the outcome is the outcome of attempt
`A`, which is final because it succeeded, or was the last permitted
attempt, or failed non-retryably; and one backoff delay was slept after
each non-final attempt. -/
theorem executeWithRetryGo_spec {T : Type} (op : Nat → Except JsError T)
    (b : ℚ) (jit : Nat → ℚ) (maxA : Nat) :
    ∀ remaining attempt, attempt + remaining = maxA + 1 → 1 ≤ attempt → attempt ≤ maxA →
    ∃ A, attempt ≤ A ∧ A ≤ maxA ∧
      (executeWithRetryGo op b jit maxA remaining attempt).attempts =
        List.range' attempt (A - attempt + 1) ∧
      (∀ n, attempt ≤ n → n < A → ∃ e, op n = .error e ∧ shouldRetry e = true) ∧
      ((∃ v, op A = .ok v ∧
          (executeWithRetryGo op b jit maxA remaining attempt).result = .ok v) ∨
       (∃ e, op A = .error e ∧
          (executeWithRetryGo op b jit maxA remaining attempt).result = .error e ∧
          (A = maxA ∨ shouldRetry e = false))) ∧
      (executeWithRetryGo op b jit maxA remaining attempt).delays =
        (List.range' attempt (A - attempt)).map
          (fun n => (n + 1, calculateDelay b (jit n) n)) := by
  intro remaining
  induction remaining with
  | zero => intro attempt hsum h1 hle; omega
  | succ rem ih =>
      intro attempt hsum h1 hle
      cases hop : op attempt with
      | ok v =>
          refine ⟨attempt, le_rfl, hle, ?_, ?_, ?_, ?_⟩
          · simp [executeWithRetryGo, hop]
          · intro n hn hn'; omega
          · exact Or.inl ⟨v, hop, by simp [executeWithRetryGo, hop]⟩
          · simp [executeWithRetryGo, hop]
      | error e =>
          by_cases hA : attempt = maxA
          · subst hA
            refine ⟨attempt, le_rfl, hle, ?_, ?_, ?_, ?_⟩
            · simp [executeWithRetryGo, hop]
            · intro n hn hn'; omega
            · exact Or.inr ⟨e, hop, by simp [executeWithRetryGo, hop], Or.inl rfl⟩
            · simp [executeWithRetryGo, hop]
          · by_cases hr : shouldRetry e = true
            · obtain ⟨A, hA1, hA2, hatts, hmid, hres, hdel⟩ :=
                ih (attempt + 1) (by omega) (by omega) (by omega)
              refine ⟨A, by omega, hA2, ?_, ?_, ?_, ?_⟩
              · have hn : A - attempt + 1 = (A - (attempt + 1) + 1) + 1 := by omega
                rw [hn, List.range'_succ]
                simp [executeWithRetryGo, hop, hA, hr, hatts]
              · intro n hn hn'
                rcases Nat.eq_or_lt_of_le hn with hn | hn
                · exact ⟨e, hn ▸ hop, hr⟩
                · exact hmid n hn hn'
              · rcases hres with ⟨w, hw, hw'⟩ | ⟨f, hf, hf', hfin⟩
                · exact Or.inl ⟨w, hw, by simp [executeWithRetryGo, hop, hA, hr, hw']⟩
                · exact Or.inr ⟨f, hf,
                    by simp [executeWithRetryGo, hop, hA, hr, hf'], hfin⟩
              · have hn : A - attempt = (A - (attempt + 1)) + 1 := by omega
                rw [hn, List.range'_succ]
                simp [executeWithRetryGo, hop, hA, hr, hdel]
            · refine ⟨attempt, le_rfl, hle, ?_, ?_, ?_, ?_⟩
              · simp [executeWithRetryGo, hop, hA, hr]
              · intro n hn hn'; omega
              · exact Or.inr ⟨e, hop,
                  by simp [executeWithRetryGo, hop, hA, hr],
                  Or.inr (by simpa using hr)⟩
              · simp [executeWithRetryGo, hop, hA, hr]

/-- C1: For every operation and `maxAttempts ≥ 1`, `executeWithRetry` runs
the operation at most `maxAttempts` times and behaves as the state machine
`Attempting(n)`: there is a final attempt `A` with attempts `1..A` run in
order; the result of the first success is returned; after a failure at
attempt `n` the loop moves to attempt `n+1` iff `n < maxAttempts` and the
failure is retryable (every non-final attempt failed retryably, and the
final failure is final because `A = maxAttempts` or it is non-retryable,
in which case the last captured error is re-raised); in particular an
operation whose first failure is non-retryable is attempted exactly once
with that error re-raised. -/
theorem executeWithRetry_state_machine {T : Type} (op : Nat → Except JsError T)
    (b : ℚ) (jit : Nat → ℚ) (maxAttempts : Nat) (hmax : 1 ≤ maxAttempts) :
    ∃ A, 1 ≤ A ∧ A ≤ maxAttempts ∧
      (executeWithRetry op b jit maxAttempts).attempts = List.range' 1 A ∧
      (executeWithRetry op b jit maxAttempts).attempts.length ≤ maxAttempts ∧
      (∀ n, 1 ≤ n → n < A → ∃ e, op n = .error e ∧ shouldRetry e = true) ∧
      ((∃ v, op A = .ok v ∧
          (executeWithRetry op b jit maxAttempts).result = .ok v) ∨
       (∃ e, op A = .error e ∧
          (executeWithRetry op b jit maxAttempts).result = .error e ∧
          (A = maxAttempts ∨ shouldRetry e = false))) ∧
      (∀ e, op 1 = .error e → shouldRetry e = false →
        (executeWithRetry op b jit maxAttempts).attempts = [1] ∧
        (executeWithRetry op b jit maxAttempts).result = .error e) := by
  obtain ⟨A, hA1, hA2, hatts, hmid, hres, hdel⟩ :=
    executeWithRetryGo_spec op b jit maxAttempts maxAttempts 1 (by omega) le_rfl hmax
  have hatts' : (executeWithRetry op b jit maxAttempts).attempts = List.range' 1 A := by
    rw [executeWithRetry, hatts]; congr 1; omega
  refine ⟨A, hA1, hA2, hatts', ?_, hmid, ?_, ?_⟩
  · rw [hatts', List.length_range']; exact hA2
  · exact hres
  · intro e hop hnr
    have hA1' : A = 1 := by
      by_contra hne
      obtain ⟨e', he', hr'⟩ := hmid 1 le_rfl (by omega)
      rw [hop] at he'
      cases he'
      rw [hr'] at hnr
      cases hnr
    subst hA1'
    rcases hres with ⟨v, hv, _⟩ | ⟨f, hf, hf', _⟩
    · rw [hop] at hv; cases hv
    · rw [hop] at hf
      cases hf
      exact ⟨by rw [hatts']; rfl, hf'⟩

/-- Witness for C1: an operation that always fails with a non-retryable
error ("boom") under `maxAttempts = 3` is attempted exactly once. -/
theorem executeWithRetry_state_machine_witness :
    (executeWithRetry (fun _ => (.error ⟨"boom", none⟩ : Except JsError Nat))
      1000 (fun _ => 0) 3).attempts = [1] := by
  obtain ⟨A, _, _, _, _, _, _, hlast⟩ :=
    executeWithRetry_state_machine (fun _ => (.error ⟨"boom", none⟩ : Except JsError Nat))
      1000 (fun _ => 0) 3 (by decide)
  exact (hlast ⟨"boom", none⟩ rfl (by decide)).1

/-- C4: every delay actually slept before attempt `k` in a retry sequence
equals `min(baseDelay * 2^(k-2) + jitter, 30000)` for the jitter drawn
after attempt `k-1`; when that jitter lies in `[0, 1000)` the delay lies
between `min(baseDelay * 2^(k-2), 30000)` and
`min(baseDelay * 2^(k-2) + 1000, 30000)`, and `k ≥ 2`. -/
theorem calculateDelay_bounds {T : Type} (op : Nat → Except JsError T)
    (b : ℚ) (jit : Nat → ℚ) (maxAttempts k : Nat) (d : ℚ)
    (hmem : (k, d) ∈ (executeWithRetry op b jit maxAttempts).delays)
    (hjlo : 0 ≤ jit (k - 1)) (hjhi : jit (k - 1) < 1000) :
    2 ≤ k ∧ d = min (b * 2 ^ (k - 2) + jit (k - 1)) 30000 ∧
    min (b * 2 ^ (k - 2)) 30000 ≤ d ∧ d ≤ min (b * 2 ^ (k - 2) + 1000) 30000 := by
  rcases Nat.eq_zero_or_pos maxAttempts with h0 | hpos
  · subst h0
    simp [executeWithRetry, executeWithRetryGo] at hmem
  · obtain ⟨A, hA1, hA2, hatts, hmid, hres, hdel⟩ :=
      executeWithRetryGo_spec op b jit maxAttempts maxAttempts 1 (by omega) le_rfl hpos
    rw [executeWithRetry] at hmem
    rw [hdel] at hmem
    obtain ⟨n, hn, heq⟩ := List.mem_map.1 hmem
    obtain ⟨i, hi, hni⟩ := List.mem_range'.1 hn
    have hk : k = n + 1 := (congrArg Prod.fst heq).symm
    have hd : d = calculateDelay b (jit n) n := (congrArg Prod.snd heq).symm
    have hn1 : 1 ≤ n := by omega
    have hkn : n = k - 1 := by omega
    have hkn2 : n - 1 = k - 2 := by omega
    subst hkn
    refine ⟨by omega, ?_, ?_, ?_⟩
    · rw [hd, calculateDelay, hkn2]
    · rw [hd, calculateDelay, hkn2]
      exact min_le_min (by linarith) le_rfl
    · rw [hd, calculateDelay, hkn2]
      exact min_le_min (by linarith) le_rfl

/-- Witness for C4: with `baseDelay = 1000`, jitter constantly `500` and an
operation that always fails with a network error, the delay slept before
attempt `2` is `1500 = min(1000 * 2^0 + 500, 30000)`. -/
theorem calculateDelay_bounds_witness :
    2 ≤ 2 ∧ (1500 : ℚ) = min ((1000 : ℚ) * 2 ^ (2 - 2) + 500) 30000 ∧
    min ((1000 : ℚ) * 2 ^ (2 - 2)) 30000 ≤ 1500 ∧
    (1500 : ℚ) ≤ min ((1000 : ℚ) * 2 ^ (2 - 2) + 1000) 30000 :=
  calculateDelay_bounds
    (fun _ => (.error ⟨"NETWORK_ERROR: down", none⟩ : Except JsError Nat))
    1000 (fun _ => 500) 2 2 1500
    (by
      have hsr : shouldRetry ⟨"NETWORK_ERROR: down", none⟩ = true := by decide
      simp [executeWithRetry, executeWithRetryGo, hsr, calculateDelay]
      norm_num)
    (by norm_num) (by norm_num)

/-! ## HTTP failure classification (C2) -/

/-- Splitting a literal prefix: if `l = a ++ b` then `(e ++ l) ++ z`
regroups as `(e ++ a) ++ (b ++ z)`. -/
theorem str_split3 (e l z a b : String) (h : l = a ++ b) :
    (e ++ l) ++ z = (e ++ a) ++ (b ++ z) := by
  subst h; simp [String.append_assoc]

/-- Splitting a literal prefix under two further appended pieces. -/
theorem str_split5 (e l t l2 m a b : String) (h : l = a ++ b) :
    (((e ++ l) ++ t) ++ l2) ++ m = (e ++ a) ++ (b ++ (t ++ (l2 ++ m))) := by
  subst h; simp [String.append_assoc]

/-- C2: for every failed raw HTTP exchange, the error the response
interceptor raises is the spec's table entry for the response status —
its message is `kind ++ ": " ++ detail` where `kind` depends only on the
status: 401 ↦ UNAUTHORIZED, 403 ↦ FORBIDDEN, 404 ↦ RESOURCE_NOT_FOUND,
429 ↦ RATE_LIMIT_EXCEEDED, ≥500 ↦ NETWORK_ERROR, and any other status or
a transport failure without status ↦ NETWORK_ERROR. -/
theorem interceptor_matches_spec_table (status : Option Nat) (message : String) :
    ∃ detail, interceptorErrorMessage status message =
      specHttpErrorKind status ++ ": " ++ detail := by
  cases status with
  | none =>
      exact ⟨"Request failed - " ++ message,
        str_split3 ERROR_CODES.NETWORK_ERROR ": Request failed - " message
          ": " "Request failed - " (by decide)⟩
  | some s =>
      by_cases h401 : s = 401
      · subst h401
        exact ⟨"Invalid API credentials - " ++ message,
          str_split3 ERROR_CODES.UNAUTHORIZED ": Invalid API credentials - " message
            ": " "Invalid API credentials - " (by decide)⟩
      · by_cases h403 : s = 403
        · subst h403
          exact ⟨"Access denied - " ++ message,
            str_split3 ERROR_CODES.FORBIDDEN ": Access denied - " message
              ": " "Access denied - " (by decide)⟩
        · by_cases h404 : s = 404
          · subst h404
            exact ⟨"Resource not found - " ++ message,
              str_split3 ERROR_CODES.RESOURCE_NOT_FOUND ": Resource not found - " message
                ": " "Resource not found - " (by decide)⟩
          · by_cases h429 : s = 429
            · subst h429
              exact ⟨"Rate limit exceeded - " ++ message,
                str_split3 ERROR_CODES.RATE_LIMIT_EXCEEDED ": Rate limit exceeded - " message
                  ": " "Rate limit exceeded - " (by decide)⟩
            · by_cases h500 : s ≠ 0 ∧ 500 ≤ s
              · refine ⟨"Server error (" ++ (toString s ++ (") - " ++ message)), ?_⟩
                have hL : interceptorErrorMessage (some s) message =
                    (((ERROR_CODES.NETWORK_ERROR ++ ": Server error (") ++ toString s)
                      ++ ") - ") ++ message := by
                  simp only [interceptorErrorMessage,
                    if_neg h401, if_neg h403, if_neg h404, if_neg h429, if_pos h500]
                have hR : specHttpErrorKind (some s) = ERROR_CODES.NETWORK_ERROR := by
                  simp only [specHttpErrorKind,
                    if_neg h401, if_neg h403, if_neg h404, if_neg h429]
                rw [hL, hR]
                exact str_split5 ERROR_CODES.NETWORK_ERROR ": Server error ("
                  (toString s) ") - " message ": " "Server error (" (by decide)
              · refine ⟨"Request failed - " ++ message, ?_⟩
                have hL : interceptorErrorMessage (some s) message =
                    (ERROR_CODES.NETWORK_ERROR ++ ": Request failed - ") ++ message := by
                  simp only [interceptorErrorMessage,
                    if_neg h401, if_neg h403, if_neg h404, if_neg h429, if_neg h500]
                have hR : specHttpErrorKind (some s) = ERROR_CODES.NETWORK_ERROR := by
                  simp only [specHttpErrorKind,
                    if_neg h401, if_neg h403, if_neg h404, if_neg h429]
                rw [hL, hR]
                exact str_split3 ERROR_CODES.NETWORK_ERROR ": Request failed - " message
                  ": " "Request failed - " (by decide)

/-! ## Credentials in the constructor's debug log (C7) -/

/-- C7 (violated by the code): the second debug log line the `GorgiasClient`
constructor emits is exactly `"Auth header: Basic "` followed by the base64
encoding of `username:apiKey` — so the Basic-Auth credential encoding does
appear in an emitted log line (here for the credentials `user`/`key`). -/
theorem constructor_logs_credentials :
    (constructorDebugLogLines "acme" "user" "key").getD 1 "" =
      "Auth header: Basic dXNlcjprZXk=" ∧
    jsIncludes ((constructorDebugLogLines "acme" "user" "key").getD 1 "")
      (base64Encode ("user" ++ ":" ++ "key")) = true := by
  constructor <;> decide

/-! ## `updateTicket` payload (C8) -/

/-- C8 counterexample: for the update that passes `null` as
`assignee_user_id` (and nothing else), the transmitted body is empty — the
null assignee is filtered out rather than transmitted, so passing null
cannot unassign the ticket (the claim's "nullable so that passing null
unassigns" fails on the code). -/
theorem updateTicket_null_assignee_dropped :
    updateTicketPayload
      ⟨1, JsVal.undef, JsVal.null, JsVal.undef, JsVal.undef, JsVal.undef, JsVal.undef⟩ = [] ∧
    (⟨1, JsVal.undef, JsVal.null, JsVal.undef, JsVal.undef, JsVal.undef,
      JsVal.undef⟩ : TicketUpdate).assignee_user_id = JsVal.null := by
  constructor <;> decide

/-- C8 (amended): the transmitted body contains exactly those of the six
update fields that are present (not `undefined`) and non-null — and
consequently a `null` `assignee_user_id` is omitted like any other null
field, so it is left untouched remotely rather than unassigned. -/
theorem updateTicketPayload_exactly_present_nonnull (u : TicketUpdate)
    (k : String) (v : JsVal) :
    ((k, v) ∈ updateTicketPayload u ↔
      (k, v) ∈ updateData u ∧ v ≠ JsVal.undef ∧ v ≠ JsVal.null) ∧
    (u.assignee_user_id = JsVal.null →
      ∀ w, ("assignee_user_id", w) ∉ updateTicketPayload u) := by
  have hmem : ∀ k' v', (k', v') ∈ updateTicketPayload u ↔
      (k', v') ∈ updateData u ∧ v' ≠ JsVal.undef ∧ v' ≠ JsVal.null := by
    intro k' v'
    simp [updateTicketPayload, List.mem_filter, and_assoc]
  refine ⟨hmem k v, ?_⟩
  intro hnull w hw
  obtain ⟨hin, hundef, hnl⟩ := (hmem _ _).1 hw
  simp only [updateData, List.mem_cons, List.mem_singleton] at hin
  rcases hin with h | h | h | h | h | h <;> simp at h
  exact hnl (h.trans hnull)

/-- Witness for C8's amended theorem: a `status` update survives into the
payload of a concrete `TicketUpdate` whose assignee is `null`. -/
theorem updateTicketPayload_exactly_present_nonnull_witness :
    ("status", JsVal.str "open") ∈ updateTicketPayload
      ⟨7, JsVal.str "open", JsVal.null, JsVal.undef, JsVal.undef,
       JsVal.undef, JsVal.undef⟩ := by
  have h := updateTicketPayload_exactly_present_nonnull
    ⟨7, JsVal.str "open", JsVal.null, JsVal.undef, JsVal.undef,
     JsVal.undef, JsVal.undef⟩ "status" (JsVal.str "open")
  exact h.1.2 ⟨by decide, by decide, by decide⟩

/-! ## `sendReply` validation (C9) -/

/-- C9: a `sendReply` with `message_type = "outgoing"` and no
`receiver_email` throws the `VALIDATION_ERROR` while building the payload,
before the `client.post` call (zero HTTP requests are issued); that error
is classified non-retryable, so `executeWithRetry` runs the operation
exactly once, sleeps no delay, and re-raises the validation error. -/
theorem sendReply_missing_receiver (r : MessageRequest) (b : ℚ) (jit : Nat → ℚ)
    (maxAttempts : Nat) (hmt : r.message_type = "outgoing")
    (hrcv : r.receiver_email = none) (hmax : 1 ≤ maxAttempts) :
    sendReplyBuild r = .error receiverRequiredError ∧
    sendReplyHttpRequests r = 0 ∧
    shouldRetry receiverRequiredError = false ∧
    (executeWithRetry (fun _ => sendReplyBuild r) b jit maxAttempts).result =
      .error receiverRequiredError ∧
    (executeWithRetry (fun _ => sendReplyBuild r) b jit maxAttempts).attempts = [1] ∧
    (executeWithRetry (fun _ => sendReplyBuild r) b jit maxAttempts).delays = [] := by
  have hb : sendReplyBuild r = .error receiverRequiredError := by
    simp [sendReplyBuild, hmt, hrcv, jsFalsyOptStr]
  have hsr : shouldRetry receiverRequiredError = false := by decide
  obtain ⟨A, hA1, hA2, hatts, hmid, hres, hdel⟩ :=
    executeWithRetryGo_spec (fun _ => sendReplyBuild r) b jit maxAttempts
      maxAttempts 1 (by omega) le_rfl hmax
  have hA : A = 1 := by
    by_contra hne
    obtain ⟨e', he', hr'⟩ := hmid 1 le_rfl (by omega)
    simp only [hb] at he'
    cases he'
    rw [hsr] at hr'
    cases hr'
  subst hA
  have hresult :
      (executeWithRetry (fun _ => sendReplyBuild r) b jit maxAttempts).result =
        .error receiverRequiredError := by
    rcases hres with ⟨v, hv, _⟩ | ⟨f, hf, hf', _⟩
    · simp only [hb] at hv; cases hv
    · simp only [hb] at hf
      cases hf
      exact hf'
  refine ⟨hb, ?_, hsr, hresult, ?_, ?_⟩
  · rw [sendReplyHttpRequests, hb]
  · rw [executeWithRetry, hatts]; rfl
  · rw [executeWithRetry, hdel]; rfl

/-- Witness for C9: a concrete outgoing message request without receiver
issues no HTTP request. -/
theorem sendReply_missing_receiver_witness :
    sendReplyHttpRequests
      ⟨1, "outgoing", "hello", none, "agent@example.com", none, none, none⟩ = 0 :=
  (sendReply_missing_receiver
    ⟨1, "outgoing", "hello", none, "agent@example.com", none, none, none⟩
    1000 (fun _ => 0) 3 rfl rfl (by decide)).2.1

/-! ## Satisfaction score 0 treated as missing (C10) -/

/-- C10: a filtered ticket whose satisfaction survey score is `0` is
excluded from the satisfaction average (the truthiness test
`ticket.satisfaction_survey?.score` rejects `0`), and a customer all of
whose filtered tickets carry no survey or a `0` score gets an undefined
`satisfaction_score` even with `include_satisfaction` set. -/
theorem satisfaction_zero_score_excluded (t : Ticket) (ts : List Ticket)
    (p : ExtractParams) (c : Customer)
    (hz : t.satisfaction_survey = some ⟨0⟩) :
    calculateAverageSatisfaction (t :: ts) = calculateAverageSatisfaction ts ∧
    (p.include_satisfaction = true →
      (∀ u ∈ t :: ts, u.satisfaction_survey = none ∨
        u.satisfaction_survey = some ⟨0⟩) →
      (buildCustomerData p c (t :: ts)).satisfaction_score = none) := by
  have hf : hasTruthyScore t = false := by simp [hasTruthyScore, hz]
  constructor
  · unfold calculateAverageSatisfaction satisfactionScores
    rw [List.filter_cons_of_neg (by simp [hf])]
  · intro hinc hall
    have hfil : (sortByCreatedDesc (t :: ts)).filter hasTruthyScore = [] := by
      rw [List.filter_eq_nil_iff]
      intro u hu
      have hu' : u ∈ t :: ts := by
        rw [sortByCreatedDesc] at hu
        exact (stableSort_perm createdDescLe (t :: ts)).mem_iff.1 hu
      rcases hall u hu' with h | h <;> simp [hasTruthyScore, h]
    simp [buildCustomerData, hinc, calculateAverageSatisfaction,
      satisfactionScores, hfil]

/-- Witness for C10: one ticket with survey score `0` yields an undefined
satisfaction average. -/
theorem satisfaction_zero_score_excluded_witness :
    (buildCustomerData ⟨none, none, none, false, true, none⟩ ⟨1, "a@b.c", none, none⟩
      [⟨1, "open", "email", 0, 0, [], some ⟨0⟩⟩]).satisfaction_score = none :=
  (satisfaction_zero_score_excluded ⟨1, "open", "email", 0, 0, [], some ⟨0⟩⟩ []
    ⟨none, none, none, false, true, none⟩ ⟨1, "a@b.c", none, none⟩ rfl).2 rfl
    (by intro u hu; simp at hu; subst hu; right; rfl)

/-! ## Lemmas for the aggregation engine (C5, C6) -/

theorem foldl_add_map {α : Type} (f : α → Nat) :
    ∀ (l : List α) (n : Nat), l.foldl (fun s t => s + f t) n = n + (l.map f).sum := by
  intro l
  induction l with
  | nil => intro n; simp
  | cons x xs ih => intro n; simp [ih, Nat.add_assoc]

theorem foldl_add_rat :
    ∀ (l : List ℚ) (q : ℚ), l.foldl (· + ·) q = q + l.sum := by
  intro l
  induction l with
  | nil => intro q; simp
  | cons x xs ih => intro q; simp [ih]; ring

theorem mem_jsUniqueFold {α : Type} [DecidableEq α] :
    ∀ (l acc : List α) (x : α), x ∈ jsUniqueFold acc l ↔ x ∈ acc ∨ x ∈ l := by
  intro l
  induction l with
  | nil => intro acc x; simp [jsUniqueFold]
  | cons y ys ih =>
      intro acc x
      show x ∈ jsUniqueFold (if y ∈ acc then acc else acc ++ [y]) ys ↔ _
      rw [ih]
      by_cases hy : y ∈ acc
      · simp only [if_pos hy, List.mem_cons]
        constructor
        · rintro (h | h)
          · exact Or.inl h
          · exact Or.inr (Or.inr h)
        · rintro (h | h | h)
          · exact Or.inl h
          · exact Or.inl (h ▸ hy)
          · exact Or.inr h
      · simp only [if_neg hy, List.mem_append, List.mem_singleton, List.mem_cons]
        tauto

theorem nodup_jsUniqueFold {α : Type} [DecidableEq α] :
    ∀ (l acc : List α), acc.Nodup → (jsUniqueFold acc l).Nodup := by
  intro l
  induction l with
  | nil => intro acc h; exact h
  | cons y ys ih =>
      intro acc h
      show (jsUniqueFold (if y ∈ acc then acc else acc ++ [y]) ys).Nodup
      by_cases hy : y ∈ acc
      · rw [if_pos hy]; exact ih acc h
      · rw [if_neg hy]
        refine ih _ ?_
        simp [List.nodup_append, h, hy]

theorem mem_jsUnique {α : Type} [DecidableEq α] (l : List α) (x : α) :
    x ∈ jsUnique l ↔ x ∈ l := by
  rw [jsUnique, mem_jsUniqueFold]
  simp

theorem nodup_jsUnique {α : Type} [DecidableEq α] (l : List α) :
    (jsUnique l).Nodup :=
  nodup_jsUniqueFold l [] List.nodup_nil

theorem createdDescLe_total (a b : Ticket) :
    createdDescLe a b = true ∨ createdDescLe b a = true := by
  simp only [createdDescLe, decide_eq_true_eq]
  exact le_total b.created_datetime a.created_datetime

theorem createdDescLe_trans (a b c : Ticket) :
    createdDescLe a b = true → createdDescLe b c = true → createdDescLe a c = true := by
  simp only [createdDescLe, decide_eq_true_eq]
  intro h1 h2
  exact le_trans h2 h1

theorem sortByCreatedDesc_perm (ts : List Ticket) :
    (sortByCreatedDesc ts).Perm ts :=
  stableSort_perm createdDescLe ts

/-- A nonempty list sorts to a head that is a maximal filtered ticket. -/
theorem sortByCreatedDesc_head_max (ts : List Ticket) (h : ts ≠ []) :
    ∃ m rest, sortByCreatedDesc ts = m :: rest ∧ m ∈ ts ∧
      ∀ u ∈ ts, u.created_datetime ≤ m.created_datetime := by
  have hperm := sortByCreatedDesc_perm ts
  have hpw : (sortByCreatedDesc ts).Pairwise (fun a b => createdDescLe a b = true) :=
    stableSort_pairwise createdDescLe createdDescLe_total createdDescLe_trans ts
  cases hs : sortByCreatedDesc ts with
  | nil =>
      rw [hs] at hperm
      exact absurd (hperm.symm.eq_nil) h
  | cons m rest =>
      rw [hs] at hperm hpw
      refine ⟨m, rest, rfl, hperm.mem_iff.1 (List.mem_cons_self m rest), ?_⟩
      intro u hu
      rcases List.mem_cons.1 (hperm.symm.mem_iff.1 hu) with h' | h'
      · exact h' ▸ le_rfl
      · have := (List.pairwise_cons.1 hpw).1 u h'
        simpa [createdDescLe] using this

theorem satisfactionScores_perm {l₁ l₂ : List Ticket} (h : l₁.Perm l₂) :
    (satisfactionScores l₁).Perm (satisfactionScores l₂) :=
  (h.filter hasTruthyScore).map _

/-- `calculateAverageSatisfaction` depends only on the multiset of tickets. -/
theorem calculateAverageSatisfaction_perm {l₁ l₂ : List Ticket} (h : l₁.Perm l₂) :
    calculateAverageSatisfaction l₁ = calculateAverageSatisfaction l₂ := by
  have hp := satisfactionScores_perm h
  simp only [calculateAverageSatisfaction]
  rw [foldl_add_rat, foldl_add_rat, hp.length_eq, hp.sum_eq]

/-- Membership in the date-filtered list: both bounds are inclusive and a
missing bound is no constraint. -/
theorem mem_filterTicketsByDate (df dt : Option Int) (ts : List Ticket) (t : Ticket) :
    t ∈ filterTicketsByDate df dt ts ↔ t ∈ ts ∧
      (∀ d0, df = some d0 → d0 ≤ t.created_datetime) ∧
      (∀ d1, dt = some d1 → t.created_datetime ≤ d1) := by
  cases df with
  | some d0 =>
      cases dt with
      | some d1 => simp [filterTicketsByDate, List.mem_filter, and_assoc]
      | none => simp [filterTicketsByDate, List.mem_filter]
  | none =>
      cases dt with
      | some d1 => simp [filterTicketsByDate, List.mem_filter]
      | none => simp [filterTicketsByDate]

/-- Membership in the status-filtered list: a missing or empty
`status_filter` is no constraint. -/
theorem mem_filterTicketsByStatus (sfo : Option (List String)) (ts : List Ticket)
    (t : Ticket) :
    t ∈ filterTicketsByStatus sfo ts ↔ t ∈ ts ∧
      (∀ sf, sfo = some sf → 0 < sf.length → t.status ∈ sf) := by
  cases sfo with
  | none => simp [filterTicketsByStatus]
  | some sf =>
      by_cases h : 0 < sf.length
      · simp only [filterTicketsByStatus, if_pos h, List.mem_filter]
        constructor
        · rintro ⟨ht, hc⟩
          refine ⟨ht, ?_⟩
          rintro sf' hsf' -
          cases hsf'
          exact List.elem_iff.1 hc
        · rintro ⟨ht, hall⟩
          exact ⟨ht, List.elem_iff.2 (hall sf rfl h)⟩
      · simp only [filterTicketsByStatus, if_neg h]
        constructor
        · intro ht
          refine ⟨ht, ?_⟩
          rintro sf' hsf' hlen
          cases hsf'
          exact absurd hlen h
        · exact fun hh => hh.1

/-- C5: for every customer and ticket list, writing `F` for the tickets
surviving the date-range filter (inclusive on both bounds) and the status
filter, the emitted record satisfies: `ticket_count = |F|`;
`last_ticket_date` is the maximal `created_datetime` of `F` (undefined if
`F` is empty) and `status` is the status of a most-recently-created ticket
of `F` (`"unknown"` if `F` is empty); with `include_satisfaction`,
`satisfaction_score` is the mean of the available satisfaction scores
rounded to two decimals, or undefined when no ticket carries a score;
`total_messages` is the sum of the message counts of `F`; and `tags` and
`channels` are the corresponding duplicate-free sets. -/
theorem extractCustomerEmails_aggregates (p : ExtractParams) (c : Customer)
    (ts : List Ticket) :
    (∀ t, t ∈ filteredTicketsOf p ts ↔ (t ∈ ts ∧
      (∀ d0, p.date_from = some d0 → d0 ≤ t.created_datetime) ∧
      (∀ d1, p.date_to = some d1 → t.created_datetime ≤ d1) ∧
      (∀ sf, p.status_filter = some sf → 0 < sf.length → t.status ∈ sf))) ∧
    (buildCustomerData p c (filteredTicketsOf p ts)).ticket_count =
      (filteredTicketsOf p ts).length ∧
    (filteredTicketsOf p ts = [] →
      (buildCustomerData p c (filteredTicketsOf p ts)).last_ticket_date = none ∧
      (buildCustomerData p c (filteredTicketsOf p ts)).status = "unknown") ∧
    (filteredTicketsOf p ts ≠ [] → ∃ m, m ∈ filteredTicketsOf p ts ∧
      (∀ u ∈ filteredTicketsOf p ts, u.created_datetime ≤ m.created_datetime) ∧
      (buildCustomerData p c (filteredTicketsOf p ts)).last_ticket_date =
        some m.created_datetime ∧
      (buildCustomerData p c (filteredTicketsOf p ts)).status = m.status) ∧
    (p.include_satisfaction = true →
      (buildCustomerData p c (filteredTicketsOf p ts)).satisfaction_score =
        (if satisfactionScores (filteredTicketsOf p ts) = [] then none
         else some ((jsRound ((satisfactionScores (filteredTicketsOf p ts)).sum /
           ((satisfactionScores (filteredTicketsOf p ts)).length : ℚ) * 100) : ℚ) / 100))) ∧
    (p.include_satisfaction = false →
      (buildCustomerData p c (filteredTicketsOf p ts)).satisfaction_score = none) ∧
    (buildCustomerData p c (filteredTicketsOf p ts)).total_messages =
      ((filteredTicketsOf p ts).map Ticket.messages_count).sum ∧
    (∀ s, s ∈ (buildCustomerData p c (filteredTicketsOf p ts)).tags ↔
      (p.include_tags = true ∧ ∃ u ∈ filteredTicketsOf p ts, ∃ tg ∈ u.tags, tg.name = s)) ∧
    (buildCustomerData p c (filteredTicketsOf p ts)).tags.Nodup ∧
    (∀ ch, ch ∈ (buildCustomerData p c (filteredTicketsOf p ts)).channels ↔
      ∃ u ∈ filteredTicketsOf p ts, u.channel = ch) ∧
    (buildCustomerData p c (filteredTicketsOf p ts)).channels.Nodup := by
  set F := filteredTicketsOf p ts with hF
  have hperm : (sortByCreatedDesc F).Perm F := sortByCreatedDesc_perm F
  refine ⟨?_, ?_, ?_, ?_, ?_, ?_, ?_, ?_, ?_, ?_, ?_⟩
  · intro t
    rw [hF, filteredTicketsOf, mem_filterTicketsByStatus, mem_filterTicketsByDate]
    tauto
  · simp [buildCustomerData]
  · intro hemp
    have hs : sortByCreatedDesc F = [] := by
      rw [hemp]; rfl
    simp [buildCustomerData, hs]
  · intro hne
    obtain ⟨m, rest, hs, hm, hmax⟩ := sortByCreatedDesc_head_max F hne
    exact ⟨m, hm, hmax, by simp [buildCustomerData, hs]⟩
  · intro hinc
    have hc : calculateAverageSatisfaction (sortByCreatedDesc F) =
        calculateAverageSatisfaction F := calculateAverageSatisfaction_perm hperm
    simp only [buildCustomerData, if_pos hinc, hc]
    simp only [calculateAverageSatisfaction, foldl_add_rat, zero_add]
    by_cases h0 : satisfactionScores F = []
    · simp [h0]
    · simp [h0, List.length_eq_zero.ne.2 h0]
  · intro hinc
    simp [buildCustomerData, hinc]
  · have hmsg : (buildCustomerData p c F).total_messages =
        ((sortByCreatedDesc F).map Ticket.messages_count).sum := by
      simp [buildCustomerData, foldl_add_map]
    rw [hmsg]
    exact (hperm.map Ticket.messages_count).sum_eq
  · intro s
    by_cases htag : p.include_tags = true
    · have htags_eq : (buildCustomerData p c F).tags =
          jsUnique ((List.map (fun t => List.map Tag.name t.tags)
            (sortByCreatedDesc F)).flatten) := by
        simp [buildCustomerData, htag]
      rw [htags_eq, mem_jsUnique, List.mem_flatten]
      simp only [htag, true_and]
      constructor
      · rintro ⟨l, hl, hsl⟩
        obtain ⟨u, hu, rfl⟩ := List.mem_map.1 hl
        obtain ⟨tg, htg, htgname⟩ := List.mem_map.1 hsl
        exact ⟨u, hperm.mem_iff.1 hu, tg, htg, htgname⟩
      · rintro ⟨u, hu, tg, htg, htgname⟩
        exact ⟨u.tags.map Tag.name, List.mem_map.2 ⟨u, hperm.mem_iff.2 hu, rfl⟩,
          List.mem_map.2 ⟨tg, htg, htgname⟩⟩
    · have htag' : p.include_tags = false := by
        cases h : p.include_tags
        · rfl
        · exact absurd h htag
      simp [buildCustomerData, htag', htag]
  · by_cases htag : p.include_tags = true
    · have htags_eq : (buildCustomerData p c F).tags =
          jsUnique ((List.map (fun t => List.map Tag.name t.tags)
            (sortByCreatedDesc F)).flatten) := by
        simp [buildCustomerData, htag]
      rw [htags_eq]
      exact nodup_jsUnique _
    · have htag' : p.include_tags = false := by
        cases h : p.include_tags
        · rfl
        · exact absurd h htag
      simp [buildCustomerData, htag']
  · intro ch
    have hch_eq : (buildCustomerData p c F).channels =
        jsUnique ((sortByCreatedDesc F).map Ticket.channel) := by
      simp [buildCustomerData]
    rw [hch_eq, mem_jsUnique, List.mem_map]
    constructor
    · rintro ⟨u, hu, rfl⟩
      exact ⟨u, hperm.mem_iff.1 hu, rfl⟩
    · rintro ⟨u, hu, rfl⟩
      exact ⟨u, hperm.mem_iff.2 hu, rfl⟩
  · have hch_eq : (buildCustomerData p c F).channels =
        jsUnique ((sortByCreatedDesc F).map Ticket.channel) := by
      simp [buildCustomerData]
    rw [hch_eq]
    exact nodup_jsUnique _

/-- Witness for C5 (the spec's aggregation example): a customer with
filtered-ticket satisfaction scores `[4, 5]` gets `satisfaction_score =
4.5`. -/
theorem extractCustomerEmails_aggregates_witness :
    (buildCustomerData ⟨none, none, none, false, true, none⟩ ⟨1, "a@b.c", none, none⟩
      (filteredTicketsOf ⟨none, none, none, false, true, none⟩
        [⟨1, "open", "email", 10, 2, [], some ⟨4⟩⟩,
         ⟨2, "closed", "chat", 20, 3, [], some ⟨5⟩⟩])).satisfaction_score =
      some (9 / 2 : ℚ) := by
  have h := (extractCustomerEmails_aggregates ⟨none, none, none, false, true, none⟩
    ⟨1, "a@b.c", none, none⟩
    [⟨1, "open", "email", 10, 2, [], some ⟨4⟩⟩,
     ⟨2, "closed", "chat", 20, 3, [], some ⟨5⟩⟩]).2.2.2.2.1 rfl
  rw [h]
  have hscores : satisfactionScores (filteredTicketsOf ⟨none, none, none, false, true, none⟩
      [⟨1, "open", "email", 10, 2, [], some ⟨4⟩⟩,
       ⟨2, "closed", "chat", 20, 3, [], some ⟨5⟩⟩]) = [4, 5] := by
    simp [satisfactionScores, filteredTicketsOf, filterTicketsByDate,
      filterTicketsByStatus, hasTruthyScore, List.filter]
  rw [hscores, if_neg (by simp)]
  have h9 : ([4, 5] : List ℚ).sum / (([4, 5] : List ℚ).length : ℚ) * 100 = 450 := by
    simp
    norm_num
  simp only [h9]
  have hr : jsRound 450 = 450 := by
    rw [jsRound]
    norm_num
  rw [hr]
  norm_num

/-- One page of the extraction loop: the loop examines a prefix `attempted`
of the page, appends one record per successful customer of that prefix (in
order), never lets the success count pass `maxLimit`, and stops early only
because the limit was reached. -/
theorem processPage_spec (p : ExtractParams)
    (ticketsFor : Customer → Except JsError (List Ticket)) (maxLimit : Nat) :
    ∀ (page : List Customer) (processed : Nat) (acc : List CustomerEmailData),
      processed ≤ maxLimit →
      ∃ attempted, attempted <+: page ∧
        processPage p ticketsFor maxLimit page processed acc =
          (processed + (attempted.filterMap (processCustomer p ticketsFor)).length,
           acc ++ attempted.filterMap (processCustomer p ticketsFor)) ∧
        processed + (attempted.filterMap (processCustomer p ticketsFor)).length ≤ maxLimit ∧
        (attempted = page ∨
         processed + (attempted.filterMap (processCustomer p ticketsFor)).length = maxLimit) := by
  intro page
  induction page with
  | nil =>
      intro processed acc hle
      exact ⟨[], List.nil_prefix, by simp [processPage], by simpa, Or.inl rfl⟩
  | cons cst rest ih =>
      intro processed acc hle
      by_cases hstop : maxLimit ≤ processed
      · have hpe : processed = maxLimit := le_antisymm hle hstop
        refine ⟨[], List.nil_prefix, ?_, by simpa, Or.inr (by simpa using hpe)⟩
        simp [processPage, hstop]
      · have hstop' : ¬ maxLimit ≤ processed := hstop
        cases hpc : processCustomer p ticketsFor cst with
        | some d =>
            obtain ⟨att, hpre, heq, hle', hmax⟩ := ih (processed + 1) (acc ++ [d]) (by omega)
            refine ⟨cst :: att, ?_, ?_, ?_, ?_⟩
            · exact (List.cons_prefix_cons).2 ⟨rfl, hpre⟩
            · simp only [processPage, if_neg hstop', hpc]
              rw [heq, List.filterMap_cons_some hpc]
              simp only [List.length_cons, List.append_assoc, List.singleton_append,
                Prod.mk.injEq]
              exact ⟨by omega, trivial⟩
            · rw [List.filterMap_cons_some hpc]
              simp only [List.length_cons]
              omega
            · rcases hmax with h | h
              · exact Or.inl (by rw [h])
              · refine Or.inr ?_
                rw [List.filterMap_cons_some hpc]
                simp only [List.length_cons]
                omega
        | none =>
            obtain ⟨att, hpre, heq, hle', hmax⟩ := ih processed acc hle
            refine ⟨cst :: att, ?_, ?_, ?_, ?_⟩
            · exact (List.cons_prefix_cons).2 ⟨rfl, hpre⟩
            · simp only [processPage, if_neg hstop', hpc]
              rw [heq, List.filterMap_cons_none hpc]
            · rw [List.filterMap_cons_none hpc]
              exact hle'
            · rcases hmax with h | h
              · exact Or.inl (by rw [h])
              · refine Or.inr ?_
                rw [List.filterMap_cons_none hpc]
                exact h

/-- The page loop: across pages, the extraction examines a prefix of the
concatenation of all customer pages and stops early only at the limit. -/
theorem extractLoop_spec (p : ExtractParams)
    (ticketsFor : Customer → Except JsError (List Ticket)) (maxLimit : Nat) :
    ∀ (pages : List (List Customer)) (processed : Nat) (acc : List CustomerEmailData),
      processed ≤ maxLimit →
      ∃ attempted, attempted <+: pages.flatten ∧
        extractLoop p ticketsFor maxLimit pages processed acc =
          acc ++ attempted.filterMap (processCustomer p ticketsFor) ∧
        processed + (attempted.filterMap (processCustomer p ticketsFor)).length ≤ maxLimit ∧
        (attempted = pages.flatten ∨
         processed + (attempted.filterMap (processCustomer p ticketsFor)).length = maxLimit) := by
  intro pages
  induction pages with
  | nil =>
      intro processed acc hle
      exact ⟨[], List.nil_prefix, by simp [extractLoop], by simpa, Or.inl rfl⟩
  | cons page rest ih =>
      intro processed acc hle
      obtain ⟨att1, hpre1, heq1, hle1, hmax1⟩ :=
        processPage_spec p ticketsFor maxLimit page processed acc hle
      cases rest with
      | nil =>
          refine ⟨att1, ?_, ?_, hle1, ?_⟩
          · simpa using hpre1
          · show (processPage p ticketsFor maxLimit page processed acc).2 = _
            rw [heq1]
          · simpa using hmax1
      | cons q qs =>
          by_cases hcont : (processPage p ticketsFor maxLimit page processed acc).1 < maxLimit
          · have hatt1 : att1 = page := by
              rcases hmax1 with h | h
              · exact h
              · rw [heq1] at hcont
                omega
            obtain ⟨att2, hpre2, heq2, hle2, hmax2⟩ :=
              ih (processed + (att1.filterMap (processCustomer p ticketsFor)).length)
                (acc ++ att1.filterMap (processCustomer p ticketsFor)) hle1
            refine ⟨att1 ++ att2, ?_, ?_, ?_, ?_⟩
            · obtain ⟨t, ht⟩ := hpre2
              subst hatt1
              exact ⟨t, by rw [List.flatten_cons, List.append_assoc, ht]⟩
            · show (if _ < maxLimit then _ else _) = _
              rw [if_pos hcont, heq1, heq2, List.filterMap_append, List.append_assoc]
            · rw [List.filterMap_append, List.length_append]
              omega
            · rcases hmax2 with h | h
              · exact Or.inl (by rw [List.flatten_cons, hatt1, h])
              · refine Or.inr ?_
                rw [List.filterMap_append, List.length_append]
                omega
          · have hfull : processed + (att1.filterMap (processCustomer p ticketsFor)).length =
                maxLimit := by
              rw [heq1] at hcont
              omega
            refine ⟨att1, ?_, ?_, hle1, Or.inr hfull⟩
            · exact hpre1.trans ⟨(q :: qs).flatten, by simp⟩
            · show (if _ < maxLimit then _ else _) = _
              rw [if_neg hcont, heq1]

/-- C6: the extraction examines a prefix of the concatenation of the
customer pages; a customer whose processing fails yields no record while
every other examined customer yields exactly one, in processing order
(`filterMap` over the examined prefix); the output length never exceeds
`params.limit || 100`; and the prefix is the whole customer sequence
unless the limit was reached. -/
theorem extractCustomerEmails_skips_failures (p : ExtractParams)
    (ticketsFor : Customer → Except JsError (List Ticket))
    (pages : List (List Customer)) :
    ∃ attempted, attempted <+: pages.flatten ∧
      extractCustomerEmails p ticketsFor pages =
        attempted.filterMap (processCustomer p ticketsFor) ∧
      (∀ c ∈ attempted, ∀ e, ticketsFor c = .error e →
        processCustomer p ticketsFor c = none) ∧
      (∀ c ∈ attempted, ∀ tickets, ticketsFor c = .ok tickets →
        processCustomer p ticketsFor c =
          some (buildCustomerData p c (filteredTicketsOf p tickets))) ∧
      (extractCustomerEmails p ticketsFor pages).length ≤ jsOrDefaultNat p.limit 100 ∧
      (attempted = pages.flatten ∨
       (extractCustomerEmails p ticketsFor pages).length = jsOrDefaultNat p.limit 100) := by
  obtain ⟨attempted, hpre, heq, hle, hmax⟩ :=
    extractLoop_spec p ticketsFor (jsOrDefaultNat p.limit 100) pages 0 [] (Nat.zero_le _)
  have hout : extractCustomerEmails p ticketsFor pages =
      attempted.filterMap (processCustomer p ticketsFor) := by
    rw [extractCustomerEmails, heq, List.nil_append]
  refine ⟨attempted, hpre, hout, ?_, ?_, ?_, ?_⟩
  · intro c _ e he
    rw [processCustomer, he]
  · intro c _ tickets ht
    rw [processCustomer, ht]
  · rw [hout]
    simpa using hle
  · rcases hmax with h | h
    · exact Or.inl h
    · refine Or.inr ?_
      rw [hout]
      simpa using h

/-! ## Lemmas for the rate limiter (C3) -/

/-- A sorted integer list splits as the (prefix of) elements `≤ θ` followed
by the (suffix of) elements `> θ`. -/
theorem sorted_filter_split (θ : Int) :
    ∀ (l : List Int), l.Pairwise (· ≤ ·) →
      l = l.filter (fun t => !decide (θ < t)) ++ l.filter (fun t => decide (θ < t)) := by
  intro l
  induction l with
  | nil => intro h; rfl
  | cons x xs ih =>
      intro h
      rcases List.pairwise_cons.1 h with ⟨hx, hxs⟩
      by_cases hθ : θ < x
      · have hneg : xs.filter (fun t => !decide (θ < t)) = [] := by
          rw [List.filter_eq_nil_iff]
          intro t ht
          simp only [Bool.not_eq_true', decide_eq_false_iff_not, not_not]
          exact lt_of_lt_of_le hθ (hx t ht)
        have hpos : xs.filter (fun t => decide (θ < t)) = xs := by
          rw [List.filter_eq_self]
          intro t ht
          simpa using lt_of_lt_of_le hθ (hx t ht)
        rw [List.filter_cons_of_neg (by simp [hθ]),
          List.filter_cons_of_pos (by simp [hθ]), hneg, hpos, List.nil_append]
      · rw [List.filter_cons_of_pos (by simp [hθ]),
          List.filter_cons_of_neg (by simp [hθ]), List.cons_append]
        exact congrArg (List.cons x) (ih hxs)

/-- Every nonempty list of integers has a maximal member. -/
theorem exists_max_mem :
    ∀ (l : List Int), l ≠ [] → ∃ m ∈ l, ∀ x ∈ l, x ≤ m := by
  intro l
  induction l with
  | nil => intro h; exact absurd rfl h
  | cons y ys ih =>
      intro _
      by_cases hys : ys = []
      · subst hys
        exact ⟨y, List.mem_cons_self y [], by simp⟩
      · obtain ⟨m, hm, hmax⟩ := ih hys
        by_cases hym : y ≤ m
        · refine ⟨m, List.mem_cons_of_mem y hm, ?_⟩
          intro x hx
          rcases List.mem_cons.1 hx with hx | hx
          · exact hx ▸ hym
          · exact hmax x hx
        · refine ⟨y, List.mem_cons_self y ys, ?_⟩
          intro x hx
          rcases List.mem_cons.1 hx with hx | hx
          · exact hx ▸ le_rfl
          · exact le_trans (hmax x hx) (le_of_not_le hym)

/-- If every window ending at a recorded timestamp holds at most `limit`
timestamps, then so does every sliding window of length `W`. -/
theorem countP_window_le (W : Int) (hist : List Int) (limit : Nat)
    (h : ∀ g ∈ hist,
      hist.countP (fun t => decide (g - W < t) && decide (t ≤ g)) ≤ limit) :
    ∀ a : Int, hist.countP (fun t => decide (a < t) && decide (t ≤ a + W)) ≤ limit := by
  intro a
  by_cases hempty :
      hist.filter (fun t => decide (a < t) && decide (t ≤ a + W)) = []
  · rw [List.countP_eq_length_filter, hempty]
    exact Nat.zero_le _
  · obtain ⟨m, hm, hmax⟩ :=
      exists_max_mem (hist.filter (fun t => decide (a < t) && decide (t ≤ a + W))) hempty
    have hm' := List.mem_filter.1 hm
    have hma : a < m ∧ m ≤ a + W := by
      have := hm'.2
      simp only [Bool.and_eq_true, decide_eq_true_eq] at this
      exact this
    refine le_trans (List.countP_mono_left ?_) (h m hm'.1)
    intro t ht hta
    simp only [Bool.and_eq_true, decide_eq_true_eq] at hta ⊢
    have htm : t ≤ m :=
      hmax t (List.mem_filter.2 ⟨ht, by simp [hta.1, hta.2]⟩)
    exact ⟨lt_of_le_of_lt (by omega) hta.1, htm⟩

/-- `checkLimit` on a sorted request list bounded by the clock: with
`(pruned list).length < fuel` it completes, granting at some time `g ≥ now`;
the final state is exactly the requests newer than `g - windowMs` plus the
new timestamp `g`, and fewer than `limit` old requests survive that final
pruning. -/
theorem checkLimitFuel_spec (limit : Nat) (W : Int) (hlim : 1 ≤ limit) :
    ∀ (fuel : Nat) (reqs : List Int) (now : Int),
      reqs.Pairwise (· ≤ ·) → (∀ t ∈ reqs, t ≤ now) →
      (reqs.filter (fun t => decide (now - W < t))).length < fuel →
      ∃ g, now ≤ g ∧
        checkLimitFuel limit W fuel now reqs =
          some (g, reqs.filter (fun t => decide (g - W < t)) ++ [g]) ∧
        (reqs.filter (fun t => decide (g - W < t))).length < limit := by
  intro fuel
  induction fuel with
  | zero =>
      intro reqs now _ _ hfuel
      exact absurd hfuel (Nat.not_lt_zero _)
  | succ f ih =>
      intro reqs now hsort hbound hfuel
      by_cases hcap : limit ≤ (reqs.filter (fun t => decide (now - W < t))).length
      · cases hp : reqs.filter (fun t => decide (now - W < t)) with
        | nil =>
            rw [hp] at hcap
            simp at hcap
            omega
        | cons oldest tl =>
            have holdmem : oldest ∈ reqs.filter (fun t => decide (now - W < t)) := by
              rw [hp]; exact List.mem_cons_self _ _
            have hold := List.mem_filter.1 holdmem
            have holdlt : now - W < oldest := by simpa using hold.2
            have holdle : oldest ≤ now := hbound oldest hold.1
            have hwait : 0 < oldest + W - now := by omega
            have hstep : checkLimitFuel limit W (f + 1) now reqs =
                checkLimitFuel limit W f (now + (oldest + W - now))
                  (reqs.filter (fun t => decide (now - W < t))) := by
              simp only [checkLimitFuel, hp, if_pos (hp ▸ hcap)]
              rw [if_pos hwait]
            have hnow' : now + (oldest + W - now) = oldest + W := by ring
            have hsort' : (reqs.filter (fun t => decide (now - W < t))).Pairwise
                (· ≤ ·) := List.Pairwise.sublist (List.filter_sublist reqs) hsort
            have hbound' : ∀ t ∈ reqs.filter (fun t => decide (now - W < t)),
                t ≤ oldest + W := by
              intro t ht
              have := hbound t (List.mem_filter.1 ht).1
              omega
            have hfuel' : ((reqs.filter (fun t => decide (now - W < t))).filter
                (fun t => decide ((oldest + W) - W < t))).length < f := by
              have hdrop : ((reqs.filter (fun t => decide (now - W < t))).filter
                  (fun t => decide ((oldest + W) - W < t))).length ≤ tl.length := by
                rw [hp]
                rw [List.filter_cons_of_neg (by simp)]
                exact List.length_filter_le _ tl
              have : tl.length + 1 < f + 1 := by
                rw [hp] at hfuel
                simpa using hfuel
              omega
            obtain ⟨g, hg, heq, hglt⟩ := ih (reqs.filter (fun t => decide (now - W < t)))
              (oldest + W) hsort' hbound' hfuel'
            have hfilter : (reqs.filter (fun t => decide (now - W < t))).filter
                (fun t => decide (g - W < t)) =
                reqs.filter (fun t => decide (g - W < t)) := by
              rw [List.filter_filter]
              refine List.filter_congr ?_
              intro t _
              by_cases hgt : g - W < t
              · have : now - W < t := by omega
                simp [hgt, this]
              · simp [hgt]
            refine ⟨g, by omega, ?_, ?_⟩
            · rw [hstep, hnow', heq, hfilter]
            · rw [← hfilter]
              exact hglt
      · refine ⟨now, le_rfl, ?_, by omega⟩
        simp only [checkLimitFuel]
        rw [if_neg hcap]

/-- Invariant of a sequential trace of `checkLimit` calls: the history of
recorded timestamps stays sorted and clock-bounded, splits into pruned-away
entries (all older than one window) followed by the live list, the live
list never exceeds `limit` after a call completes, and every window ending
at a recorded timestamp holds at most `limit` recorded timestamps. -/
theorem runTrace_spec (limit : Nat) (W : Int) (hW : 0 < W) (hlim : 1 ≤ limit) :
    ∀ (gaps : List Nat) (clock : Int) (reqs hist : List Int),
      hist.Pairwise (· ≤ ·) →
      (∀ t ∈ hist, t ≤ clock) →
      (∃ dropped, hist = dropped ++ reqs ∧ ∀ t ∈ dropped, t ≤ clock - W) →
      reqs.length ≤ limit →
      (∀ g ∈ hist,
        hist.countP (fun t => decide (g - W < t) && decide (t ≤ g)) ≤ limit) →
      ∃ clock' reqs' hist',
        runTrace limit W gaps clock reqs hist = some (clock', reqs', hist') ∧
        clock ≤ clock' ∧
        hist'.length = hist.length + gaps.length ∧
        hist'.Pairwise (· ≤ ·) ∧
        (∀ t ∈ hist', t ≤ clock') ∧
        (∃ dropped, hist' = dropped ++ reqs' ∧ ∀ t ∈ dropped, t ≤ clock' - W) ∧
        reqs'.length ≤ limit ∧
        (∀ g ∈ hist',
          hist'.countP (fun t => decide (g - W < t) && decide (t ≤ g)) ≤ limit) := by
  intro gaps
  induction gaps with
  | nil =>
      intro clock reqs hist hsort hb hdrop hlen hwin
      exact ⟨clock, reqs, hist, rfl, le_rfl, by simp, hsort, hb, hdrop, hlen, hwin⟩
  | cons gap gaps ih =>
      intro clock reqs hist hsort hb hdrop hlen hwin
      obtain ⟨dropped, hde, hdb⟩ := hdrop
      have hreqs_sub : reqs.Sublist hist := by
        rw [hde]; exact List.sublist_append_right dropped reqs
      have hreqs_sort : reqs.Pairwise (· ≤ ·) :=
        List.Pairwise.sublist hreqs_sub hsort
      have hnow : clock ≤ clock + (gap : Int) := by
        have : (0 : Int) ≤ (gap : Int) := Int.ofNat_nonneg gap
        omega
      have hreqs_b : ∀ t ∈ reqs, t ≤ clock + (gap : Int) := by
        intro t ht
        have := hb t (hreqs_sub.mem ht)
        omega
      have hfuel : (reqs.filter
          (fun t => decide (clock + (gap : Int) - W < t))).length < reqs.length + 1 :=
        Nat.lt_succ_of_le (List.length_filter_le _ reqs)
      obtain ⟨g, hg, heq, hglt⟩ := checkLimitFuel_spec limit W hlim
        (reqs.length + 1) reqs (clock + (gap : Int)) hreqs_sort hreqs_b hfuel
      have hcg : clock ≤ g := le_trans hnow hg
      have hhistg : ∀ t ∈ hist, t ≤ g := fun t ht => le_trans (hb t ht) hcg
      have hsort'' : (hist ++ [g]).Pairwise (· ≤ ·) := by
        rw [List.pairwise_append]
        refine ⟨hsort, List.pairwise_singleton _ _, ?_⟩
        intro a ha b hbmem
        rcases List.mem_singleton.1 hbmem with rfl
        exact hhistg a ha
      have hb'' : ∀ t ∈ hist ++ [g], t ≤ g := by
        intro t ht
        rcases List.mem_append.1 ht with ht | ht
        · exact hhistg t ht
        · exact (List.mem_singleton.1 ht) ▸ le_rfl
      have hsplit : reqs = reqs.filter (fun t => !decide (g - W < t)) ++
          reqs.filter (fun t => decide (g - W < t)) :=
        sorted_filter_split (g - W) reqs hreqs_sort
      have hde'' : hist ++ [g] =
          (dropped ++ reqs.filter (fun t => !decide (g - W < t))) ++
          (reqs.filter (fun t => decide (g - W < t)) ++ [g]) := by
        rw [hde]
        conv_lhs => rw [hsplit]
        simp [List.append_assoc]
      have hdb'' : ∀ t ∈ dropped ++ reqs.filter (fun t => !decide (g - W < t)),
          t ≤ g - W := by
        intro t ht
        rcases List.mem_append.1 ht with ht | ht
        · have := hdb t ht
          omega
        · have := (List.mem_filter.1 ht).2
          simp only [Bool.not_eq_true', decide_eq_false_iff_not, not_lt] at this
          exact this
      have hlen'' : (reqs.filter (fun t => decide (g - W < t)) ++ [g]).length ≤ limit := by
        simp only [List.length_append, List.length_singleton]
        omega
      have hwing : (hist ++ [g]).countP
          (fun t => decide (g - W < t) && decide (t ≤ g)) ≤ limit := by
        rw [hde'', List.countP_append]
        have h0 : (dropped ++ reqs.filter (fun t => !decide (g - W < t))).countP
            (fun t => decide (g - W < t) && decide (t ≤ g)) = 0 := by
          rw [List.countP_eq_zero]
          intro t ht
          have := hdb'' t ht
          simp only [Bool.and_eq_true, decide_eq_true_eq, not_and]
          intro hcon
          omega
        have h1 : (reqs.filter (fun t => decide (g - W < t)) ++ [g]).countP
            (fun t => decide (g - W < t) && decide (t ≤ g)) =
            (reqs.filter (fun t => decide (g - W < t)) ++ [g]).length := by
          rw [List.countP_eq_length]
          intro t ht
          rcases List.mem_append.1 ht with ht | ht
          · have h2 := (List.mem_filter.1 ht).2
            have h3 : t ≤ g := le_trans (hreqs_b t (List.mem_filter.1 ht).1) hg
            simp only [Bool.and_eq_true, decide_eq_true_eq]
            exact ⟨by simpa using h2, h3⟩
          · rcases List.mem_singleton.1 ht with rfl
            simp only [Bool.and_eq_true, decide_eq_true_eq]
            exact ⟨by omega, le_rfl⟩
        rw [h0, h1]
        simpa using hlen''
      have hwin'' : ∀ g0 ∈ hist ++ [g],
          (hist ++ [g]).countP
            (fun t => decide (g0 - W < t) && decide (t ≤ g0)) ≤ limit := by
        intro g0 hg0
        by_cases hgeq : g0 = g
        · exact hgeq ▸ hwing
        · have hg0hist : g0 ∈ hist := by
            rcases List.mem_append.1 hg0 with h | h
            · exact h
            · exact absurd (List.mem_singleton.1 h) hgeq
          have hg0lt : g0 < g :=
            lt_of_le_of_ne (le_trans (hb g0 hg0hist) hcg) hgeq
          rw [List.countP_append]
          have hz : ([g].countP
              (fun t => decide (g0 - W < t) && decide (t ≤ g0))) = 0 := by
            rw [List.countP_eq_zero]
            intro t ht
            rcases List.mem_singleton.1 ht with rfl
            simp only [Bool.and_eq_true, decide_eq_true_eq, not_and]
            intro _
            omega
          rw [hz]
          simpa using hwin g0 hg0hist
      obtain ⟨clock', reqs', hist', hrun, hcl, hlenf, hsortf, hbf, hdropf, hlimf, hwinf⟩ :=
        ih g (reqs.filter (fun t => decide (g - W < t)) ++ [g]) (hist ++ [g])
          hsort'' hb''
          ⟨dropped ++ reqs.filter (fun t => !decide (g - W < t)), hde'',
            fun t ht => by have := hdb'' t ht; omega⟩
          hlen'' hwin''
      refine ⟨clock', reqs', hist', ?_, le_trans hcg hcl, ?_, hsortf, hbf, hdropf,
        hlimf, hwinf⟩
      · simp only [runTrace, heq]
        exact hrun
      · simp only [hlenf, List.length_append, List.length_cons, List.length_nil]
        omega

/-- C3: for every sequence of completed `checkLimit()` calls (`gaps` are
the nonnegative delays between one call's completion and the next call),
the limiter records exactly one timestamp per completed call; no sliding
interval of length `windowMs` ever contains more than `requestsPerWindow`
recorded timestamps; the live list never exceeds `requestsPerWindow`
entries right after a call completes; and every timestamp ever recorded is
either still in the list or old enough to have been removed by time-based
pruning (older than one window before the final clock). -/
theorem rateLimiter_sliding_window (limit : Nat) (W : Int) (gaps : List Nat)
    (clock0 : Int) (hW : 0 < W) (hlim : 1 ≤ limit) :
    ∃ clockF reqsF hist,
      runTrace limit W gaps clock0 [] [] = some (clockF, reqsF, hist) ∧
      hist.length = gaps.length ∧
      reqsF.length ≤ limit ∧
      (∃ dropped, hist = dropped ++ reqsF ∧ ∀ t ∈ dropped, t ≤ clockF - W) ∧
      (∀ a : Int, hist.countP (fun t => decide (a < t) && decide (t ≤ a + W)) ≤ limit) := by
  obtain ⟨clockF, reqsF, hist, hrun, _, hlen, _, _, hdrop, hlim', hwin⟩ :=
    runTrace_spec limit W hW hlim gaps clock0 [] []
      List.Pairwise.nil (by simp) ⟨[], rfl, by simp⟩ (by simp) (by simp)
  refine ⟨clockF, reqsF, hist, hrun, by simpa using hlen, hlim', hdrop, ?_⟩
  exact countP_window_le W hist limit hwin

/-- Witness for C3: three back-to-back calls against a limit of 2 per
10 ms window. -/
theorem rateLimiter_sliding_window_witness :
    ∃ clockF reqsF hist,
      runTrace 2 10 [0, 0, 0] 0 [] [] = some (clockF, reqsF, hist) ∧
      hist.length = 3 ∧
      reqsF.length ≤ 2 ∧
      (∃ dropped, hist = dropped ++ reqsF ∧ ∀ t ∈ dropped, t ≤ clockF - 10) ∧
      (∀ a : Int, hist.countP (fun t => decide (a < t) && decide (t ≤ a + 10)) ≤ 2) := by
  simpa using rateLimiter_sliding_window 2 10 [0, 0, 0] 0 (by decide) (by decide)
